import Mathlib

set_option maxRecDepth 200000

/-!
Verification of the JTAG pin-identification engine (jtagulator.py).

The embedding models the module as follows:
* `PinId` is a natural number naming a physical line.
* `Event` records one observable action on the digital lines: driving a
  line to a level, or sampling a line and reading a level.
* `Env` is the external world: `dev n` is the level returned by the n-th
  read of the TDO line, and `bindOK p isOut` says whether the line I/O
  adapter accepts configuring pin `p` for output (`isOut = true`) or
  input; a refusal raises an exception in the source, which propagates
  (modelled by the `aborted` flag, after which nothing further happens).
* Bit strings of '0'/'1' characters from the source are `List Bool`.
* The module-level globals TMS/TDI/TCK/TDO are the `Option PinId`
  fields of `ScanState`; `none` is Python `None`.
-/

abbrev PinId := Nat

/-- One observable action on the digital lines. -/
inductive Event where
  | set : PinId → Bool → Event
  | sample : PinId → Bool → Event
  deriving DecidableEq

/-- The external world: the device's TDO levels and the adapter's
binding policy. -/
structure Env where
  dev : Nat → Bool
  bindOK : PinId → Bool → Bool

/-- One `log.info` call of the scan engine: either a BYPASS match
(carrying the TMS, TDI, TCK, TDO pins) or an IDCODE candidate
(carrying the TMS, TCK, TDO pins and the reported response). -/
inductive LogEntry where
  | bypassFound : PinId → PinId → PinId → PinId → LogEntry
  | idcodeFound : PinId → PinId → PinId → List Bool → LogEntry
  deriving DecidableEq

def JTAG_PINS_BYPASS_COUNT : Nat := 4

def JTAG_PINS_IDCODE_COUNT : Nat := 3

def JTAG_BYPASS_PATTERN_STR : String := "01101110011110001111110110111001111000111111"

/-- The fixed BYPASS test pattern, one boolean per character of the
source string ('1' becomes `true`). -/
def JTAG_BYPASS_PATTERN : List Bool := JTAG_BYPASS_PATTERN_STR.toList.map (fun c => c == '1')

def MAX_IR_LEN : Nat := 32

/-- Entry `j` of the tuple `_product` yields for counter value `k`:
the source stores `items[(k // n**s) % n]` at position `repeat-1-s`,
i.e. position `j` holds `items[(k // n**(repeat-1-j)) % n]`. -/
def digitTuple (items : List PinId) (rep k : Nat) : List PinId :=
  (List.range rep).map (fun j => items.getD ((k / items.length ^ (rep - 1 - j)) % items.length) 0)

/-- `_product(items, repeat)`: the source iterates a counter `k` over
`range(len(items) ** repeat)` and emits the digit tuple of `k`. -/
def _product (items : List PinId) (rep : Nat) : List (List PinId) :=
  (List.range (items.length ^ rep)).map (digitTuple items rep)

/-- Modelled from the spec's words (section 4.1): the k-fold Cartesian
product as nested loops with the rightmost role innermost (the last
tuple position varying fastest). Used only to compare `_product`
against the spec's description of the enumeration order. -/
def specProduct (items : List PinId) : Nat → List (List PinId)
  | 0 => [[]]
  | r + 1 => items.flatMap (fun x => (specProduct items r).map (fun t => x :: t))

/-- `len(set(item))` of the source: the number of distinct entries. -/
def distinctCount (t : List PinId) : Nat := t.dedup.length

/-- The duplicate-filtered candidate list built by both scans:
`filter(lambda item: len(set(item)) == k, _product(pool, k))`. -/
def candidates (pool : List PinId) (k : Nat) : List (List PinId) :=
  (_product pool k).filter (fun t => distinctCount t == k)

/-- `pin.value(v)`: drive a line to a level. -/
def setLine (p : PinId) (v : Bool) (tr : List Event) : List Event :=
  tr ++ [Event.set p v]

/-- `TDO.value()`: read a line; the n-th read overall returns `env.dev n`. -/
def readLine (env : Env) (p : PinId) (cnt : Nat) (tr : List Event) : Bool × Nat × List Event :=
  (env.dev cnt, cnt + 1, tr ++ [Event.sample p (env.dev cnt)])

/-- `_io_values(pins, states)`: clock low, apply every (pin, state)
pair in order, clock high, clock low, then sample TDO and return the
sampled level. The `pyb.delay(0)` calls have no observable line effect
and are not recorded. -/
def io_values (env : Env) (tck tdo : PinId) (pins : List PinId) (states : List Bool)
    (cnt : Nat) (tr : List Event) : Bool × Nat × List Event :=
  let tr1 := setLine tck false tr
  let tr2 := (pins.zip states).foldl (fun t ps => setLine ps.1 ps.2 t) tr1
  let tr3 := setLine tck true tr2
  let tr4 := setLine tck false tr3
  readLine env tdo cnt tr4

/-- `_io_tms(values)`: one `_io_values([TMS], [v])` call per bit,
collecting the sampled bits in order. -/
def io_tms (env : Env) (tms tck tdo : PinId) : List Bool → Nat → List Event → List Bool × Nat × List Event
  | [], cnt, tr => ([], cnt, tr)
  | v :: vs, cnt, tr =>
    let r1 := io_values env tck tdo [tms] [v] cnt tr
    let r2 := io_tms env tms tck tdo vs r1.2.1 r1.2.2
    (r1.1 :: r2.1, r2.2)

/-- Clocking loop of `_io_tms_tdi` after the zip: one
`_io_values([TMS, TDI], [tv, dv])` call per pair. -/
def io_pairs (env : Env) (tms tdi tck tdo : PinId) : List (Bool × Bool) → Nat → List Event → List Bool × Nat × List Event
  | [], cnt, tr => ([], cnt, tr)
  | p :: ps, cnt, tr =>
    let r1 := io_values env tck tdo [tms, tdi] [p.1, p.2] cnt tr
    let r2 := io_pairs env tms tdi tck tdo ps r1.2.1 r1.2.2
    (r1.1 :: r2.1, r2.2)

/-- `_io_tms_tdi(tms_values, tdi_values)`: `zip` truncates at the
shorter list, exactly as in the source. -/
def io_tms_tdi (env : Env) (tms tdi tck tdo : PinId) (tms_values tdi_values : List Bool)
    (cnt : Nat) (tr : List Event) : List Bool × Nat × List Event :=
  io_pairs env tms tdi tck tdo (tms_values.zip tdi_values) cnt tr

/-- TMS word of `_restore_idle()`: the string '111110'. -/
def RESTORE_IDLE_SEQ : List Bool := [true, true, true, true, true, false]

/-- TMS word of `_enter_shift_ir()`: the string '1100'. -/
def ENTER_SHIFT_IR_SEQ : List Bool := [true, true, false, false]

/-- TMS word of `_enter_shift_dr()`: the string '100'. -/
def ENTER_SHIFT_DR_SEQ : List Bool := [true, false, false]

/-- `_restore_idle()`. The sampled bits are discarded. -/
def restore_idle (env : Env) (tms tck tdo : PinId) (cnt : Nat) (tr : List Event) : Nat × List Event :=
  (io_tms env tms tck tdo RESTORE_IDLE_SEQ cnt tr).2

/-- `_enter_shift_ir()`. -/
def enter_shift_ir (env : Env) (tms tck tdo : PinId) (cnt : Nat) (tr : List Event) : Nat × List Event :=
  (io_tms env tms tck tdo ENTER_SHIFT_IR_SEQ cnt tr).2

/-- `_enter_shift_dr()`. -/
def enter_shift_dr (env : Env) (tms tck tdo : PinId) (cnt : Nat) (tr : List Event) : Nat × List Event :=
  (io_tms env tms tck tdo ENTER_SHIFT_DR_SEQ cnt tr).2

/-- `_shift_array(data)`: when the module TDI is `None` the payload is
driven on the TMS line; otherwise TMS is '0'*(n-1)+'1' and TDI carries
the payload. -/
def shift_array (env : Env) (tms tck tdo : PinId) (tdi : Option PinId) (data : List Bool)
    (cnt : Nat) (tr : List Event) : List Bool × Nat × List Event :=
  match tdi with
  | none => io_tms env tms tck tdo data cnt tr
  | some tdip =>
    io_tms_tdi env tms tdip tck tdo (List.replicate (data.length - 1) false ++ [true]) data cnt tr

/-- `_send_data(data)`: enter Shift-DR, shift the payload, clock TMS
'10', and return the bits sampled during the shift. -/
def send_data (env : Env) (tms tck tdo : PinId) (tdi : Option PinId) (data : List Bool)
    (cnt : Nat) (tr : List Event) : List Bool × Nat × List Event :=
  let p := enter_shift_dr env tms tck tdo cnt tr
  let r := shift_array env tms tck tdo tdi data p.1 p.2
  let q := io_tms env tms tck tdo [true, false] r.2.1 r.2.2
  (r.1, q.2)

/-- Preamble of `_bypass_test`: restore idle, enter Shift-IR, clock 32
(TMS=0, TDI=1) pairs, then TMS '110'. All sampled bits are discarded.
`_bypass_test` only runs with all four globals bound, so TDI is a
plain `PinId` here. -/
def bypass_preamble (env : Env) (tms tdi tck tdo : PinId) (cnt : Nat) (tr : List Event) : Nat × List Event :=
  let p1 := restore_idle env tms tck tdo cnt tr
  let p2 := enter_shift_ir env tms tck tdo p1.1 p1.2
  let r := io_tms_tdi env tms tdi tck tdo (List.replicate MAX_IR_LEN false)
    (List.replicate MAX_IR_LEN true) p2.1 p2.2
  (io_tms env tms tck tdo [true, true, false] r.2.1 r.2.2).2

/-- `_bypass_test(pattern)`: run the preamble, then `_send_data(pattern)`. -/
def bypass_test (env : Env) (tms tdi tck tdo : PinId) (pattern : List Bool)
    (cnt : Nat) (tr : List Event) : List Bool × Nat × List Event :=
  let p := bypass_preamble env tms tdi tck tdo cnt tr
  send_data env tms tck tdo (some tdi) pattern p.1 p.2

/-- The string '1'*32 the IDCODE scan compares against. -/
def IDCODE_ALL_ONES : List Bool := List.replicate 32 true

/-- The string '0'*32 the IDCODE scan compares against. -/
def IDCODE_ALL_ZEROS : List Bool := List.replicate 32 false

/-- Preamble of `_idcode_test`: restore idle, enter Shift-DR. -/
def idcode_preamble (env : Env) (tms tck tdo : PinId) (cnt : Nat) (tr : List Event) : Nat × List Event :=
  let p1 := restore_idle env tms tck tdo cnt tr
  enter_shift_dr env tms tck tdo p1.1 p1.2

/-- `_idcode_test()`: preamble, shift 32 zero bits through
`_shift_array` (with whatever the module TDI currently is), clock TMS
'010', and return the reversed sampled bits. -/
def idcode_test (env : Env) (tms tck tdo : PinId) (tdi : Option PinId)
    (cnt : Nat) (tr : List Event) : List Bool × Nat × List Event :=
  let p := idcode_preamble env tms tck tdo cnt tr
  let r := shift_array env tms tck tdo tdi (List.replicate 32 false) p.1 p.2
  let q := io_tms env tms tck tdo [false, true, false] r.2.1 r.2.2
  (r.1.reverse, q.2)

/-- The module-level mutable state together with the observables of a
run: the four line bindings, the running TDO read counter, the line
event trace, the emitted log entries, and whether an uncaught
exception has aborted execution. -/
structure ScanState where
  tms : Option PinId
  tdi : Option PinId
  tck : Option PinId
  tdo : Option PinId
  cnt : Nat
  tr : List Event
  logs : List LogEntry
  aborted : Bool
  deriving DecidableEq

/-- A fresh module: `TMS = TDI = TCK = TDO = None`, nothing logged. -/
def initScan : ScanState :=
  { tms := none, tdi := none, tck := none, tdo := none,
    cnt := 0, tr := [], logs := [], aborted := false }

/-- One iteration of the `bypass_search` loop: bind TMS, TDI, TCK as
outputs and TDO as input (an adapter refusal raises, which aborts the
run), run `_bypass_test`, and log the combination when the response
equals the pattern. -/
def bypassStep (env : Env) (st : ScanState) (comb : List PinId) : ScanState :=
  if st.aborted then st else
  let c0 := comb.getD 0 0
  let c1 := comb.getD 1 0
  let c2 := comb.getD 2 0
  let c3 := comb.getD 3 0
  if env.bindOK c0 true = false then { st with aborted := true } else
  let s1 : ScanState := { st with tms := some c0 }
  if env.bindOK c1 true = false then { s1 with aborted := true } else
  let s2 : ScanState := { s1 with tdi := some c1 }
  if env.bindOK c2 true = false then { s2 with aborted := true } else
  let s3 : ScanState := { s2 with tck := some c2 }
  if env.bindOK c3 false = false then { s3 with aborted := true } else
  let s4 : ScanState := { s3 with tdo := some c3 }
  let r := bypass_test env c0 c1 c2 c3 JTAG_BYPASS_PATTERN s4.cnt s4.tr
  let s5 : ScanState := { s4 with cnt := r.2.1, tr := r.2.2 }
  if r.1 = JTAG_BYPASS_PATTERN then
    { s5 with logs := s5.logs ++ [LogEntry.bypassFound c0 c1 c2 c3] }
  else s5

/-- One iteration of the `idcode_search` loop: bind TMS, TCK as
outputs and TDO as input (the module TDI is left untouched), run
`_idcode_test`, and log the combination with its response unless the
response is all-ones or all-zeros. -/
def idcodeStep (env : Env) (st : ScanState) (comb : List PinId) : ScanState :=
  if st.aborted then st else
  let c0 := comb.getD 0 0
  let c1 := comb.getD 1 0
  let c2 := comb.getD 2 0
  if env.bindOK c0 true = false then { st with aborted := true } else
  let s1 : ScanState := { st with tms := some c0 }
  if env.bindOK c1 true = false then { s1 with aborted := true } else
  let s2 : ScanState := { s1 with tck := some c1 }
  if env.bindOK c2 false = false then { s2 with aborted := true } else
  let s3 : ScanState := { s2 with tdo := some c2 }
  let r := idcode_test env c0 c1 c2 s3.tdi s3.cnt s3.tr
  let s4 : ScanState := { s3 with cnt := r.2.1, tr := r.2.2 }
  if r.1 ≠ IDCODE_ALL_ONES ∧ r.1 ≠ IDCODE_ALL_ZEROS then
    { s4 with logs := s4.logs ++ [LogEntry.idcodeFound c0 c1 c2 r.1] }
  else s4

/-- `Jtagulator.bypass_search(self)` over a pin pool. -/
def bypass_search (env : Env) (pool : List PinId) (st : ScanState) : ScanState :=
  (candidates pool JTAG_PINS_BYPASS_COUNT).foldl (bypassStep env) st

/-- `Jtagulator.idcode_search(self)` over a pin pool. -/
def idcode_search (env : Env) (pool : List PinId) (st : ScanState) : ScanState :=
  (candidates pool JTAG_PINS_IDCODE_COUNT).foldl (idcodeStep env) st

/-- The values sampled (in order) in a trace. -/
def samplesOf (tr : List Event) : List Bool :=
  tr.filterMap (fun e => match e with
    | Event.sample _ v => some v
    | Event.set _ _ => none)

/-- The values driven (in order) onto one particular pin in a trace. -/
def setsOn (p : PinId) (tr : List Event) : List Bool :=
  tr.filterMap (fun e => match e with
    | Event.set q v => if q = p then some v else none
    | Event.sample _ _ => none)

/-- A quiet environment: every TDO read returns low, every binding is
accepted. -/
def envQuiet : Env :=
  { dev := fun _ => false, bindOK := fun _ _ => true }

/-- An environment whose adapter refuses to configure pin 4. -/
def envRefuse4 : Env :=
  { dev := fun _ => false, bindOK := fun p _ => p != 4 }

/-- The events of one `_io_values` call that samples the level `v`:
clock low, the output pairs in order, clock high, clock low, sample. -/
def clockEvents (tck tdo : PinId) (pins : List PinId) (states : List Bool) (v : Bool) : List Event :=
  Event.set tck false ::
    ((pins.zip states).map (fun ps => Event.set ps.1 ps.2)
      ++ [Event.set tck true, Event.set tck false, Event.sample tdo v])

/-- The point inside `_bypass_test` right after `_send_data` has entered
Shift-DR: IR preamble followed by the Shift-DR entry. The DR shift of
the BYPASS test starts exactly here. -/
def bypassDrEntry (env : Env) (tms tdi tck tdo : PinId) (cnt : Nat) (tr : List Event) :
    Nat × List Event :=
  enter_shift_dr env tms tck tdo (bypass_preamble env tms tdi tck tdo cnt tr).1
    (bypass_preamble env tms tdi tck tdo cnt tr).2

/-- The DR shift stage of `_bypass_test`: the `_shift_array` call that
clocks the pattern through the data register, applied at the state
reached by the preamble. Its first component is the value
`_bypass_test` returns. -/
def bypassDrShift (env : Env) (tms tdi tck tdo : PinId) (pattern : List Bool)
    (cnt : Nat) (tr : List Event) : List Bool × Nat × List Event :=
  shift_array env tms tck tdo (some tdi) pattern
    (bypassDrEntry env tms tdi tck tdo cnt tr).1 (bypassDrEntry env tms tdi tck tdo cnt tr).2

/-- The DR capture stage of `_idcode_test`: the `_shift_array` call
that clocks the 32 zero bits, applied after restore-idle and the
Shift-DR entry. `_idcode_test` returns its first component reversed. -/
def idcodeDrShift (env : Env) (tms tck tdo : PinId) (tdi : Option PinId)
    (cnt : Nat) (tr : List Event) : List Bool × Nat × List Event :=
  shift_array env tms tck tdo tdi (List.replicate 32 false)
    (idcode_preamble env tms tck tdo cnt tr).1 (idcode_preamble env tms tck tdo cnt tr).2

/-! ## Enumerator lemmas -/

theorem length_flatMap_eq (l : List PinId) (f : PinId → List (List PinId)) :
    (l.flatMap f).length = (l.map (fun a => (f a).length)).sum := by
  simp only [List.flatMap_def, List.length_flatten, List.map_map]
  rfl

theorem specProduct_length_eq (l : List PinId) (k : Nat) :
    ∀ t ∈ specProduct l k, t.length = k := by
  induction k with
  | zero =>
    intro t ht
    simp only [specProduct, List.mem_singleton] at ht
    subst ht
    rfl
  | succ r ih =>
    intro t ht
    simp only [specProduct, List.mem_flatMap, List.mem_map] at ht
    obtain ⟨x, _, t', ht', rfl⟩ := ht
    simp [ih t' ht']

theorem specProduct_subset (l : List PinId) (k : Nat) :
    ∀ t ∈ specProduct l k, ∀ x ∈ t, x ∈ l := by
  induction k with
  | zero =>
    intro t ht
    simp only [specProduct, List.mem_singleton] at ht
    subst ht
    intro x hx
    exact absurd hx (List.not_mem_nil x)
  | succ r ih =>
    intro t ht
    simp only [specProduct, List.mem_flatMap, List.mem_map] at ht
    obtain ⟨x, hx, t', ht', rfl⟩ := ht
    intro y hy
    rcases List.mem_cons.mp hy with h | h
    · exact h ▸ hx
    · exact ih t' ht' y h

theorem flatMap_cons_filter (l : List PinId) (L : List (List PinId)) (q : PinId → Bool) :
    (l.filter q).flatMap (fun x => (L.filter (fun t => t.all q)).map (fun t => x :: t))
      = l.flatMap (fun x => (L.filter (fun t => q x && t.all q)).map (fun t => x :: t)) := by
  induction l with
  | nil => rfl
  | cons a l ih =>
    cases h : q a with
    | true => simp [List.filter_cons, h, ih]
    | false => simp [List.filter_cons, h, ih]

theorem specProduct_filter_pool (l : List PinId) (q : PinId → Bool) (k : Nat) :
    specProduct (l.filter q) k = (specProduct l k).filter (fun t => t.all q) := by
  induction k with
  | zero => simp [specProduct]
  | succ r ih =>
    simp only [specProduct, ih]
    rw [List.filter_flatMap]
    rw [flatMap_cons_filter]
    have hp : (fun x => (((specProduct l r).filter (fun t => q x && t.all q)).map (fun t => x :: t)))
        = (fun x => (((specProduct l r).map (fun t => x :: t)).filter (fun t => t.all q))) := by
      funext x
      rw [List.filter_map]
      rfl
    rw [hp]

theorem decide_not_mem_eq_all (x : PinId) (t : List PinId) :
    (decide (x ∉ t)) = t.all (fun y => y != x) := by
  rw [Bool.eq_iff_iff]
  simp only [decide_eq_true_eq, List.all_eq_true, bne_iff_ne]
  constructor
  · intro h y hy hyx
    exact h (hyx ▸ hy)
  · intro h hx
    exact h x hx rfl

theorem specProduct_nodup_count (k : Nat) : ∀ (l : List PinId), l.Nodup →
    ((specProduct l k).filter (fun t => decide t.Nodup)).length = l.length.descFactorial k := by
  induction k with
  | zero =>
    intro l _
    simp [specProduct]
  | succ r ih =>
    intro l hl
    simp only [specProduct]
    rw [List.filter_flatMap, length_flatMap_eq]
    have hpt : ∀ x ∈ l,
        (((specProduct l r).map (fun t => x :: t)).filter (fun t => decide t.Nodup)).length
          = (l.length - 1).descFactorial r := by
      intro x hx
      rw [List.filter_map, List.length_map]
      have hcong : ((specProduct l r).filter ((fun t => decide t.Nodup) ∘ (fun t => x :: t)))
          = ((specProduct l r).filter (fun t => decide t.Nodup && t.all (fun y => y != x))) := by
        apply List.filter_congr
        intro t _
        show decide (x :: t).Nodup = _
        rw [Bool.eq_iff_iff]
        simp only [Bool.and_eq_true, decide_eq_true_eq, List.nodup_cons, List.all_eq_true,
          bne_iff_ne]
        constructor
        · intro h
          exact ⟨h.2, fun y hy hyx => h.1 (hyx ▸ hy)⟩
        · intro h
          exact ⟨fun hmem => h.2 x hmem rfl, h.1⟩
      rw [hcong, ← List.filter_filter, ← specProduct_filter_pool]
      have hnd : (l.filter (fun y => y != x)).Nodup := hl.filter _
      rw [ih _ hnd]
      have herase : l.filter (fun y => y != x) = l.erase x := (hl.erase_eq_filter x).symm
      rw [herase, List.length_erase_of_mem hx]
    rw [List.map_congr_left hpt, List.map_const', List.sum_const_nat]
    cases l with
    | nil => simp
    | cons a l' =>
      rw [List.length_cons, Nat.succ_descFactorial_succ]
      simp

theorem specProduct_nodup (l : List PinId) (hl : l.Nodup) (k : Nat) : (specProduct l k).Nodup := by
  induction k with
  | zero => simp [specProduct]
  | succ r ih =>
    simp only [specProduct]
    rw [List.nodup_flatMap]
    constructor
    · intro x _
      exact ih.map (fun t1 t2 h => by simpa using h)
    · apply List.Pairwise.imp ?_ hl
      intro a b hab
      intro t ht1 ht2
      simp only [List.mem_map] at ht1 ht2
      obtain ⟨t1, _, rfl⟩ := ht1
      obtain ⟨t2, _, h2⟩ := ht2
      injection h2 with hhead _
      exact hab hhead.symm

/-! ## Bridge: the counter-and-digits enumeration equals the nested-loop product -/

theorem range_mul_flatMap (m n : Nat) :
    List.range (m * n) = (List.range m).flatMap (fun hi => (List.range n).map (fun lo => hi * n + lo)) := by
  induction m with
  | zero => simp
  | succ m ih =>
    rw [Nat.succ_mul, List.range_add, ih, List.range_succ, List.flatMap_append,
      List.flatMap_singleton]

theorem digitTuple_split (items : List PinId) (r hi lo : Nat) (hlo : lo < items.length) :
    digitTuple items (r + 1) (hi * items.length + lo)
      = digitTuple items r hi ++ [items.getD lo 0] := by
  have hn : 0 < items.length := Nat.lt_of_le_of_lt (Nat.zero_le lo) hlo
  unfold digitTuple
  rw [List.range_succ, List.map_append, List.map_singleton]
  congr 1
  · apply List.map_congr_left
    intro j hj
    rw [List.mem_range] at hj
    congr 2
    have hrj : r + 1 - 1 - j = (r - 1 - j) + 1 := by omega
    rw [hrj, pow_succ]
    rw [Nat.mul_comm (items.length ^ (r - 1 - j)) items.length, ← Nat.div_div_eq_div_mul]
    rw [Nat.mul_comm hi items.length, Nat.mul_add_div hn, Nat.div_eq_of_lt hlo, Nat.add_zero]
  · have h0 : r + 1 - 1 - r = 0 := by omega
    rw [h0, pow_zero, Nat.div_one, Nat.mul_comm hi items.length, Nat.mul_add_mod,
      Nat.mod_eq_of_lt hlo]

theorem map_getD_range (l : List PinId) :
    (List.range l.length).map (fun i => l.getD i 0) = l := by
  apply List.ext_getElem (by simp)
  intro i h1 h2
  simp [List.getD_eq_getElem?_getD, List.getElem?_eq_getElem h2]

theorem map_getD_range_comp (l : List PinId) (g : PinId → List PinId) :
    (List.range l.length).map (fun i => g (l.getD i 0)) = l.map g := by
  conv_rhs => rw [← map_getD_range l]
  rw [List.map_map]
  rfl

theorem product_snoc (items : List PinId) (r : Nat) :
    _product items (r + 1) = (_product items r).flatMap (fun t => items.map (fun x => t ++ [x])) := by
  rcases Nat.eq_zero_or_pos items.length with hn | hn
  · have hnil : items = [] := List.length_eq_zero.mp hn
    subst hnil
    simp only [_product, List.length_nil]
    rw [Nat.zero_pow (Nat.succ_pos r)]
    simp [List.flatMap_eq_nil_iff]
  · unfold _product
    rw [pow_succ, range_mul_flatMap]
    simp only [List.map_flatMap, List.flatMap_map, List.map_map]
    apply congrArg (List.flatMap (List.range (items.length ^ r)))
    funext hi
    have hmc : ∀ lo ∈ List.range items.length,
        (digitTuple items (r + 1) ∘ fun lo => hi * items.length + lo) lo
          = (fun i => digitTuple items r hi ++ [items.getD i 0]) lo := by
      intro lo hlo
      rw [List.mem_range] at hlo
      exact digitTuple_split items r hi lo hlo
    rw [List.map_congr_left hmc, map_getD_range_comp items (fun x => digitTuple items r hi ++ [x])]

theorem specProduct_snoc (items : List PinId) (r : Nat) :
    specProduct items (r + 1) = (specProduct items r).flatMap (fun t => items.map (fun x => t ++ [x])) := by
  induction r with
  | zero => simp [specProduct, List.map_eq_flatMap]
  | succ r ih =>
    conv_lhs => rw [specProduct, ih]
    conv_rhs => rw [specProduct]
    rw [List.flatMap_assoc]
    simp only [List.map_flatMap, List.flatMap_map, List.map_map]
    rfl

theorem product_eq_specProduct (items : List PinId) : ∀ r, _product items r = specProduct items r
  | 0 => by
    have h1 : List.range 1 = [0] := rfl
    simp [_product, specProduct, digitTuple, h1]
  | r + 1 => by rw [product_snoc, specProduct_snoc, product_eq_specProduct items r]

theorem mem_product_length (pool : List PinId) (k : Nat) :
    ∀ t ∈ _product pool k, t.length = k := by
  rw [product_eq_specProduct]
  exact specProduct_length_eq pool k

theorem mem_product_subset (pool : List PinId) (k : Nat) :
    ∀ t ∈ _product pool k, ∀ x ∈ t, x ∈ pool := by
  rw [product_eq_specProduct]
  exact specProduct_subset pool k

theorem candidates_eq_nodup_filter (pool : List PinId) (k : Nat) :
    candidates pool k = (_product pool k).filter (fun t => decide t.Nodup) := by
  unfold candidates
  apply List.filter_congr
  intro t ht
  have hlen := mem_product_length pool k t ht
  rw [Bool.eq_iff_iff]
  simp only [beq_iff_eq, decide_eq_true_eq, distinctCount]
  constructor
  · intro h
    have hsub := List.dedup_sublist t
    have heq := hsub.eq_of_length (by rw [h, hlen])
    rw [← heq]
    exact List.nodup_dedup t
  · intro h
    rw [List.dedup_eq_self.mpr h, hlen]

theorem candidates_count (pool : List PinId) (k : Nat) (h : pool.Nodup) :
    (candidates pool k).length = pool.length.descFactorial k := by
  rw [candidates_eq_nodup_filter, product_eq_specProduct]
  exact specProduct_nodup_count k pool h

theorem candidates_nodup (pool : List PinId) (k : Nat) (h : pool.Nodup) :
    (candidates pool k).Nodup := by
  rw [candidates_eq_nodup_filter, product_eq_specProduct]
  exact (specProduct_nodup pool h k).filter _

theorem mem_candidates_nodup (pool : List PinId) (k : Nat) :
    ∀ t ∈ candidates pool k, t.Nodup := by
  rw [candidates_eq_nodup_filter]
  intro t ht
  have := (List.mem_filter.mp ht).2
  simpa using this

theorem mem_candidates_length (pool : List PinId) (k : Nat) :
    ∀ t ∈ candidates pool k, t.length = k := by
  intro t ht
  exact mem_product_length pool k t (List.mem_filter.mp ht).1

theorem candidates_nil_of_short (pool : List PinId) (k : Nat) (h : pool.length < k) :
    candidates pool k = [] := by
  unfold candidates
  rw [List.filter_eq_nil_iff]
  intro t ht hq
  have hk : distinctCount t = k := by simpa using hq
  have hsub : t.dedup ⊆ pool := fun x hx =>
    mem_product_subset pool k t ht x (List.dedup_subset t hx)
  have hle : t.dedup.length ≤ pool.length :=
    (List.subperm_of_subset (List.nodup_dedup t) hsub).length_le
  rw [distinctCount] at hk
  omega

/-! ## Bit-clocker trace lemmas -/

theorem samplesOf_set_cons (p : PinId) (v : Bool) (tr : List Event) :
    samplesOf (Event.set p v :: tr) = samplesOf tr := rfl

theorem samplesOf_sample_cons (p : PinId) (v : Bool) (tr : List Event) :
    samplesOf (Event.sample p v :: tr) = v :: samplesOf tr := rfl

theorem setsOn_set_cons_eq (q p : PinId) (v : Bool) (tr : List Event) (h : p = q) :
    setsOn q (Event.set p v :: tr) = v :: setsOn q tr := by
  subst h
  simp [setsOn, List.filterMap_cons]

theorem setsOn_set_cons_ne (q p : PinId) (v : Bool) (tr : List Event) (h : p ≠ q) :
    setsOn q (Event.set p v :: tr) = setsOn q tr := by
  simp [setsOn, List.filterMap_cons, h]

theorem setsOn_sample_cons (q p : PinId) (v : Bool) (tr : List Event) :
    setsOn q (Event.sample p v :: tr) = setsOn q tr := rfl

theorem foldl_setLine (ps : List (PinId × Bool)) (tr : List Event) :
    ps.foldl (fun t p => t ++ [Event.set p.1 p.2]) tr = tr ++ ps.map (fun p => Event.set p.1 p.2) := by
  induction ps generalizing tr with
  | nil => simp
  | cons p ps ih =>
    rw [List.foldl_cons, ih]
    simp

theorem io_values_eq (env : Env) (tck tdo : PinId) (pins : List PinId) (states : List Bool)
    (cnt : Nat) (tr : List Event) :
    io_values env tck tdo pins states cnt tr
      = (env.dev cnt, cnt + 1, tr ++ clockEvents tck tdo pins states (env.dev cnt)) := by
  simp only [io_values, readLine, setLine, foldl_setLine]
  simp [clockEvents]

theorem samplesOf_append (a b : List Event) : samplesOf (a ++ b) = samplesOf a ++ samplesOf b :=
  List.filterMap_append a b _

theorem setsOn_append (p : PinId) (a b : List Event) :
    setsOn p (a ++ b) = setsOn p a ++ setsOn p b :=
  List.filterMap_append a b _

theorem samplesOf_pairs_map (l : List (PinId × Bool)) :
    samplesOf (l.map (fun ps => Event.set ps.1 ps.2)) = [] := by
  induction l with
  | nil => rfl
  | cons p l ih =>
    rw [List.map_cons, samplesOf_set_cons]
    exact ih

theorem setsOn_pairs_map_of_not_mem (q : PinId) (l : List (PinId × Bool))
    (h : ∀ ps ∈ l, ps.1 ≠ q) :
    setsOn q (l.map (fun ps => Event.set ps.1 ps.2)) = [] := by
  induction l with
  | nil => rfl
  | cons p l ih =>
    rw [List.map_cons, setsOn_set_cons_ne q p.1 p.2 _ (h p (List.mem_cons_self p l))]
    exact ih (fun ps hps => h ps (List.mem_cons_of_mem p hps))

theorem samplesOf_clockEvents (tck tdo : PinId) (pins : List PinId) (states : List Bool) (v : Bool) :
    samplesOf (clockEvents tck tdo pins states v) = [v] := by
  rw [clockEvents, samplesOf_set_cons, samplesOf_append, samplesOf_pairs_map]
  rfl

theorem setsOn_tck_clockEvents (tck tdo : PinId) (pins : List PinId) (states : List Bool) (v : Bool)
    (h : tck ∉ pins) :
    setsOn tck (clockEvents tck tdo pins states v) = [false, true, false] := by
  have hnm : ∀ ps ∈ pins.zip states, ps.1 ≠ tck := by
    intro ps hps hq
    exact h (hq ▸ (List.of_mem_zip hps).1)
  rw [clockEvents, setsOn_set_cons_eq tck tck false _ rfl, setsOn_append,
    setsOn_pairs_map_of_not_mem tck _ hnm, List.nil_append,
    setsOn_set_cons_eq tck tck true _ rfl, setsOn_set_cons_eq tck tck false _ rfl,
    setsOn_sample_cons]
  rfl

theorem setsOn_nil (q : PinId) : setsOn q [] = [] := rfl

theorem samplesOf_nil : samplesOf [] = [] := rfl

theorem setsOn_tms_clockEvents_single (tms tck tdo : PinId) (v b : Bool) (h : tms ≠ tck) :
    setsOn tms (clockEvents tck tdo [tms] [v] b) = [v] := by
  have h1 : ∀ (w : Bool) (rest : List Event),
      setsOn tms (Event.set tck w :: rest) = setsOn tms rest :=
    fun w rest => setsOn_set_cons_ne tms tck w rest (Ne.symm h)
  show setsOn tms (Event.set tck false :: (Event.set tms v ::
    [Event.set tck true, Event.set tck false, Event.sample tdo b])) = [v]
  rw [h1, setsOn_set_cons_eq tms tms v _ rfl, h1, h1, setsOn_sample_cons, setsOn_nil]

theorem setsOn_tms_clockEvents_pair (tms tdi tck tdo : PinId) (tv dv b : Bool)
    (h1 : tms ≠ tck) (h2 : tms ≠ tdi) :
    setsOn tms (clockEvents tck tdo [tms, tdi] [tv, dv] b) = [tv] := by
  have hc : ∀ (w : Bool) (rest : List Event),
      setsOn tms (Event.set tck w :: rest) = setsOn tms rest :=
    fun w rest => setsOn_set_cons_ne tms tck w rest (Ne.symm h1)
  show setsOn tms (Event.set tck false :: (Event.set tms tv :: Event.set tdi dv ::
    [Event.set tck true, Event.set tck false, Event.sample tdo b])) = [tv]
  rw [hc, setsOn_set_cons_eq tms tms tv _ rfl,
    setsOn_set_cons_ne tms tdi dv _ (Ne.symm h2), hc, hc, setsOn_sample_cons, setsOn_nil]

theorem setsOn_tdi_clockEvents_pair (tms tdi tck tdo : PinId) (tv dv b : Bool)
    (h1 : tdi ≠ tck) (h2 : tdi ≠ tms) :
    setsOn tdi (clockEvents tck tdo [tms, tdi] [tv, dv] b) = [dv] := by
  have hc : ∀ (w : Bool) (rest : List Event),
      setsOn tdi (Event.set tck w :: rest) = setsOn tdi rest :=
    fun w rest => setsOn_set_cons_ne tdi tck w rest (Ne.symm h1)
  show setsOn tdi (Event.set tck false :: (Event.set tms tv :: Event.set tdi dv ::
    [Event.set tck true, Event.set tck false, Event.sample tdo b])) = [dv]
  rw [hc, setsOn_set_cons_ne tdi tms tv _ (Ne.symm h2),
    setsOn_set_cons_eq tdi tdi dv _ rfl, hc, hc, setsOn_sample_cons, setsOn_nil]

theorem io_tms_samples (env : Env) (tms tck tdo : PinId) (vs : List Bool) :
    ∀ (cnt : Nat) (tr : List Event),
      samplesOf (io_tms env tms tck tdo vs cnt tr).2.2
        = samplesOf tr ++ (io_tms env tms tck tdo vs cnt tr).1 := by
  induction vs with
  | nil =>
    intro cnt tr
    simp [io_tms]
  | cons v vs ih =>
    intro cnt tr
    simp only [io_tms, io_values_eq]
    rw [ih, samplesOf_append, samplesOf_clockEvents]
    simp

theorem io_tms_setsOn (env : Env) (tms tck tdo : PinId) (h : tms ≠ tck) (vs : List Bool) :
    ∀ (cnt : Nat) (tr : List Event),
      setsOn tms (io_tms env tms tck tdo vs cnt tr).2.2 = setsOn tms tr ++ vs := by
  induction vs with
  | nil =>
    intro cnt tr
    simp [io_tms]
  | cons v vs ih =>
    intro cnt tr
    simp only [io_tms, io_values_eq]
    rw [ih, setsOn_append, setsOn_tms_clockEvents_single tms tck tdo v _ h]
    simp

theorem io_pairs_samples (env : Env) (tms tdi tck tdo : PinId) (ps : List (Bool × Bool)) :
    ∀ (cnt : Nat) (tr : List Event),
      samplesOf (io_pairs env tms tdi tck tdo ps cnt tr).2.2
        = samplesOf tr ++ (io_pairs env tms tdi tck tdo ps cnt tr).1 := by
  induction ps with
  | nil =>
    intro cnt tr
    simp [io_pairs]
  | cons p ps ih =>
    intro cnt tr
    simp only [io_pairs, io_values_eq]
    rw [ih, samplesOf_append, samplesOf_clockEvents]
    simp

theorem io_pairs_setsOn_tms (env : Env) (tms tdi tck tdo : PinId)
    (h1 : tms ≠ tck) (h2 : tms ≠ tdi) (ps : List (Bool × Bool)) :
    ∀ (cnt : Nat) (tr : List Event),
      setsOn tms (io_pairs env tms tdi tck tdo ps cnt tr).2.2
        = setsOn tms tr ++ ps.map Prod.fst := by
  induction ps with
  | nil =>
    intro cnt tr
    simp [io_pairs]
  | cons p ps ih =>
    intro cnt tr
    simp only [io_pairs, io_values_eq]
    rw [ih, setsOn_append, setsOn_tms_clockEvents_pair tms tdi tck tdo p.1 p.2 _ h1 h2]
    simp

theorem io_pairs_setsOn_tdi (env : Env) (tms tdi tck tdo : PinId)
    (h1 : tdi ≠ tck) (h2 : tdi ≠ tms) (ps : List (Bool × Bool)) :
    ∀ (cnt : Nat) (tr : List Event),
      setsOn tdi (io_pairs env tms tdi tck tdo ps cnt tr).2.2
        = setsOn tdi tr ++ ps.map Prod.snd := by
  induction ps with
  | nil =>
    intro cnt tr
    simp [io_pairs]
  | cons p ps ih =>
    intro cnt tr
    simp only [io_pairs, io_values_eq]
    rw [ih, setsOn_append, setsOn_tdi_clockEvents_pair tms tdi tck tdo p.1 p.2 _ h1 h2]
    simp

/-! ## Shift, test and scan-step lemmas -/

theorem shift_array_none_eq (env : Env) (tms tck tdo : PinId) (data : List Bool)
    (cnt : Nat) (tr : List Event) :
    shift_array env tms tck tdo none data cnt tr = io_tms env tms tck tdo data cnt tr := rfl

theorem shift_array_samples (env : Env) (tms tck tdo : PinId) (tdi : Option PinId)
    (data : List Bool) (cnt : Nat) (tr : List Event) :
    samplesOf (shift_array env tms tck tdo tdi data cnt tr).2.2
      = samplesOf tr ++ (shift_array env tms tck tdo tdi data cnt tr).1 := by
  cases tdi with
  | none => exact io_tms_samples env tms tck tdo data cnt tr
  | some p => exact io_pairs_samples env tms p tck tdo _ cnt tr

theorem shift_array_none_setsOn (env : Env) (tms tck tdo : PinId) (data : List Bool)
    (cnt : Nat) (tr : List Event) (h : tms ≠ tck) :
    setsOn tms (shift_array env tms tck tdo none data cnt tr).2.2 = setsOn tms tr ++ data :=
  io_tms_setsOn env tms tck tdo h data cnt tr

theorem shift_array_some_setsOn_tms (env : Env) (tms tck tdo p : PinId) (data : List Bool)
    (cnt : Nat) (tr : List Event) (h1 : tms ≠ tck) (h2 : tms ≠ p) (hlen : 0 < data.length) :
    setsOn tms (shift_array env tms tck tdo (some p) data cnt tr).2.2
      = setsOn tms tr ++ (List.replicate (data.length - 1) false ++ [true]) := by
  show setsOn tms (io_pairs env tms p tck tdo
    ((List.replicate (data.length - 1) false ++ [true]).zip data) cnt tr).2.2 = _
  rw [io_pairs_setsOn_tms env tms p tck tdo h1 h2 _ cnt tr]
  congr 1
  apply List.map_fst_zip
  simp only [List.length_append, List.length_replicate, List.length_singleton]
  omega

theorem shift_array_some_setsOn_tdi (env : Env) (tms tck tdo p : PinId) (data : List Bool)
    (cnt : Nat) (tr : List Event) (h1 : p ≠ tck) (h2 : p ≠ tms) :
    setsOn p (shift_array env tms tck tdo (some p) data cnt tr).2.2
      = setsOn p tr ++ data := by
  show setsOn p (io_pairs env tms p tck tdo
    ((List.replicate (data.length - 1) false ++ [true]).zip data) cnt tr).2.2 = _
  rw [io_pairs_setsOn_tdi env tms p tck tdo h1 h2 _ cnt tr]
  congr 1
  apply List.map_snd_zip
  simp only [List.length_append, List.length_replicate, List.length_singleton]
  omega

theorem bypass_test_result (env : Env) (tms tdi tck tdo : PinId) (pattern : List Bool)
    (cnt : Nat) (tr : List Event) :
    (bypass_test env tms tdi tck tdo pattern cnt tr).1
      = (shift_array env tms tck tdo (some tdi) pattern
          (enter_shift_dr env tms tck tdo
            (bypass_preamble env tms tdi tck tdo cnt tr).1
            (bypass_preamble env tms tdi tck tdo cnt tr).2).1
          (enter_shift_dr env tms tck tdo
            (bypass_preamble env tms tdi tck tdo cnt tr).1
            (bypass_preamble env tms tdi tck tdo cnt tr).2).2).1 := rfl

theorem idcode_test_result (env : Env) (tms tck tdo : PinId) (tdi : Option PinId)
    (cnt : Nat) (tr : List Event) :
    (idcode_test env tms tck tdo tdi cnt tr).1
      = ((shift_array env tms tck tdo tdi (List.replicate 32 false)
          (idcode_preamble env tms tck tdo cnt tr).1
          (idcode_preamble env tms tck tdo cnt tr).2).1).reverse := rfl

theorem bypassStep_aborted_eq (env : Env) (st : ScanState) (comb : List PinId)
    (h : st.aborted = true) :
    bypassStep env st comb = st := by
  unfold bypassStep
  rw [if_pos h]

theorem idcodeStep_aborted_eq (env : Env) (st : ScanState) (comb : List PinId)
    (h : st.aborted = true) :
    idcodeStep env st comb = st := by
  unfold idcodeStep
  rw [if_pos h]

theorem bypassStep_run (env : Env) (st : ScanState) (comb : List PinId)
    (h : st.aborted = false)
    (h0 : env.bindOK (comb.getD 0 0) true = true)
    (h1 : env.bindOK (comb.getD 1 0) true = true)
    (h2 : env.bindOK (comb.getD 2 0) true = true)
    (h3 : env.bindOK (comb.getD 3 0) false = true) :
    bypassStep env st comb =
      (let c0 := comb.getD 0 0
       let c1 := comb.getD 1 0
       let c2 := comb.getD 2 0
       let c3 := comb.getD 3 0
       let r := bypass_test env c0 c1 c2 c3 JTAG_BYPASS_PATTERN st.cnt st.tr
       let s5 : ScanState := { st with
         tms := some c0
         tdi := some c1
         tck := some c2
         tdo := some c3
         cnt := r.2.1
         tr := r.2.2 }
       if r.1 = JTAG_BYPASS_PATTERN then
         { s5 with logs := s5.logs ++ [LogEntry.bypassFound c0 c1 c2 c3] }
       else s5) := by
  simp only [bypassStep, h, h0, h1, h2, h3, Bool.false_eq_true, Bool.true_eq_false, if_false]

theorem idcodeStep_run (env : Env) (st : ScanState) (comb : List PinId)
    (h : st.aborted = false)
    (h0 : env.bindOK (comb.getD 0 0) true = true)
    (h1 : env.bindOK (comb.getD 1 0) true = true)
    (h2 : env.bindOK (comb.getD 2 0) false = true) :
    idcodeStep env st comb =
      (let c0 := comb.getD 0 0
       let c1 := comb.getD 1 0
       let c2 := comb.getD 2 0
       let r := idcode_test env c0 c1 c2 st.tdi st.cnt st.tr
       let s4 : ScanState := { st with
         tms := some c0
         tck := some c1
         tdo := some c2
         cnt := r.2.1
         tr := r.2.2 }
       if r.1 ≠ IDCODE_ALL_ONES ∧ r.1 ≠ IDCODE_ALL_ZEROS then
         { s4 with logs := s4.logs ++ [LogEntry.idcodeFound c0 c1 c2 r.1] }
       else s4) := by
  simp only [idcodeStep, h, h0, h1, h2, Bool.false_eq_true, Bool.true_eq_false, if_false]

theorem foldl_bypassStep_of_aborted (env : Env) (l : List (List PinId)) :
    ∀ st : ScanState, st.aborted = true → l.foldl (bypassStep env) st = st := by
  induction l with
  | nil => intro st _; rfl
  | cons c l ih =>
    intro st h
    rw [List.foldl_cons, bypassStep_aborted_eq env st c h]
    exact ih st h

theorem foldl_idcodeStep_of_aborted (env : Env) (l : List (List PinId)) :
    ∀ st : ScanState, st.aborted = true → l.foldl (idcodeStep env) st = st := by
  induction l with
  | nil => intro st _; rfl
  | cons c l ih =>
    intro st h
    rw [List.foldl_cons, idcodeStep_aborted_eq env st c h]
    exact ih st h

theorem idcodeStep_tdi_eq (env : Env) (st : ScanState) (comb : List PinId) :
    (idcodeStep env st comb).tdi = st.tdi := by
  simp only [idcodeStep]
  split
  · rfl
  · split
    · rfl
    · split
      · rfl
      · split
        · rfl
        · split
          · rfl
          · rfl

theorem foldl_idcodeStep_tdi (env : Env) (l : List (List PinId)) :
    ∀ st : ScanState, (l.foldl (idcodeStep env) st).tdi = st.tdi := by
  induction l with
  | nil => intro st; rfl
  | cons c l ih =>
    intro st
    rw [List.foldl_cons]
    exact (ih _).trans (idcodeStep_tdi_eq env st c)

theorem bypassStep_allbind (env : Env) (hall : ∀ p d, env.bindOK p d = true)
    (st : ScanState) (comb : List PinId) (h : st.aborted = false) :
    (bypassStep env st comb).aborted = false
      ∧ (bypassStep env st comb).tdi = some (comb.getD 1 0) := by
  rw [bypassStep_run env st comb h (hall _ _) (hall _ _) (hall _ _) (hall _ _)]
  dsimp only
  split
  · exact ⟨h, rfl⟩
  · exact ⟨h, rfl⟩

theorem foldl_bypassStep_tdi (env : Env) (hall : ∀ p d, env.bindOK p d = true)
    (l : List (List PinId)) :
    ∀ st : ScanState, st.aborted = false → l ≠ [] →
      (l.foldl (bypassStep env) st).tdi = some ((l.getLastD []).getD 1 0) := by
  induction l with
  | nil => intro st _ hne; exact absurd rfl hne
  | cons c l ih =>
    intro st h _
    rw [List.foldl_cons]
    cases l with
    | nil =>
      show (bypassStep env st c).tdi = _
      rw [(bypassStep_allbind env hall st c h).2]
      rfl
    | cons d l2 =>
      have hstep := bypassStep_allbind env hall st c h
      rw [ih (bypassStep env st c) hstep.1 (by simp)]
      simp [List.getLastD_cons]

theorem bypassStep_refused (env : Env) (st : ScanState) (comb : List PinId)
    (h : st.aborted = false)
    (href : ¬(env.bindOK (comb.getD 0 0) true = true ∧ env.bindOK (comb.getD 1 0) true = true
      ∧ env.bindOK (comb.getD 2 0) true = true ∧ env.bindOK (comb.getD 3 0) false = true)) :
    (bypassStep env st comb).aborted = true
      ∧ (bypassStep env st comb).logs = st.logs
      ∧ (bypassStep env st comb).cnt = st.cnt := by
  cases hb0 : env.bindOK (comb.getD 0 0) true with
  | false =>
    have he : bypassStep env st comb = { st with aborted := true } := by
      simp only [bypassStep, h, hb0, Bool.false_eq_true, if_false, if_true]
    rw [he]
    exact ⟨rfl, rfl, rfl⟩
  | true =>
    cases hb1 : env.bindOK (comb.getD 1 0) true with
    | false =>
      have he : bypassStep env st comb = { st with
          tms := some (comb.getD 0 0)
          aborted := true } := by
        simp only [bypassStep, h, hb0, hb1, Bool.false_eq_true, Bool.true_eq_false, if_false,
          if_true]
      rw [he]
      exact ⟨rfl, rfl, rfl⟩
    | true =>
      cases hb2 : env.bindOK (comb.getD 2 0) true with
      | false =>
        have he : bypassStep env st comb = { st with
            tms := some (comb.getD 0 0)
            tdi := some (comb.getD 1 0)
            aborted := true } := by
          simp only [bypassStep, h, hb0, hb1, hb2, Bool.false_eq_true, Bool.true_eq_false,
            if_false, if_true]
        rw [he]
        exact ⟨rfl, rfl, rfl⟩
      | true =>
        cases hb3 : env.bindOK (comb.getD 3 0) false with
        | false =>
          have he : bypassStep env st comb = { st with
              tms := some (comb.getD 0 0)
              tdi := some (comb.getD 1 0)
              tck := some (comb.getD 2 0)
              aborted := true } := by
            simp only [bypassStep, h, hb0, hb1, hb2, hb3, Bool.false_eq_true, Bool.true_eq_false,
              if_false, if_true]
          rw [he]
          exact ⟨rfl, rfl, rfl⟩
        | true => exact absurd ⟨hb0, hb1, hb2, hb3⟩ href

theorem idcodeStep_refused (env : Env) (st : ScanState) (comb : List PinId)
    (h : st.aborted = false)
    (href : ¬(env.bindOK (comb.getD 0 0) true = true ∧ env.bindOK (comb.getD 1 0) true = true
      ∧ env.bindOK (comb.getD 2 0) false = true)) :
    (idcodeStep env st comb).aborted = true
      ∧ (idcodeStep env st comb).logs = st.logs
      ∧ (idcodeStep env st comb).cnt = st.cnt := by
  cases hb0 : env.bindOK (comb.getD 0 0) true with
  | false =>
    have he : idcodeStep env st comb = { st with aborted := true } := by
      simp only [idcodeStep, h, hb0, Bool.false_eq_true, if_false, if_true]
    rw [he]
    exact ⟨rfl, rfl, rfl⟩
  | true =>
    cases hb1 : env.bindOK (comb.getD 1 0) true with
    | false =>
      have he : idcodeStep env st comb = { st with
          tms := some (comb.getD 0 0)
          aborted := true } := by
        simp only [idcodeStep, h, hb0, hb1, Bool.false_eq_true, Bool.true_eq_false, if_false,
          if_true]
      rw [he]
      exact ⟨rfl, rfl, rfl⟩
    | true =>
      cases hb2 : env.bindOK (comb.getD 2 0) false with
      | false =>
        have he : idcodeStep env st comb = { st with
            tms := some (comb.getD 0 0)
            tck := some (comb.getD 1 0)
            aborted := true } := by
          simp only [idcodeStep, h, hb0, hb1, hb2, Bool.false_eq_true, Bool.true_eq_false,
            if_false, if_true]
        rw [he]
        exact ⟨rfl, rfl, rfl⟩
      | true => exact absurd ⟨hb0, hb1, hb2⟩ href

/-! ## Claim theorems -/

/-- C7 counterexample: the fixed BYPASS test pattern is not 46 bits
long — its length is 44, so the claim's stated length is wrong. -/
theorem bypass_pattern_not_46 : ¬ (JTAG_BYPASS_PATTERN.length = 46) := by decide

/-- C7 (amended): the fixed test pattern shifted through the data
register during every BYPASS test is 44 bits long, with bit content
01101110011110001111110110111001111000111111; the DR shift drives
exactly these bits onto the TDI line. -/
theorem bypass_pattern_spec :
    JTAG_BYPASS_PATTERN.length = 44
    ∧ JTAG_BYPASS_PATTERN =
        [false, true, true, false, true, true, true, false,
         false, true, true, true, true, false, false, false,
         true, true, true, true, true, true, false, true,
         true, false, true, true, true, false, false, true,
         true, true, true, false, false, false, true, true,
         true, true, true, true]
    ∧ (∀ (env : Env) (tms tck tdo tdi : PinId) (cnt : Nat) (tr : List Event),
        tdi ≠ tck → tdi ≠ tms →
          setsOn tdi (shift_array env tms tck tdo (some tdi) JTAG_BYPASS_PATTERN cnt tr).2.2
            = setsOn tdi tr ++ JTAG_BYPASS_PATTERN) := by
  refine ⟨by decide, by decide, ?_⟩
  intro env tms tck tdo tdi cnt tr h1 h2
  exact shift_array_some_setsOn_tdi env tms tck tdo tdi JTAG_BYPASS_PATTERN cnt tr h1 h2

/-- Witness for C7's amended theorem at a concrete instance. -/
theorem bypass_pattern_spec_witness :
    ((1 : PinId) ≠ 2 ∧ (1 : PinId) ≠ 0)
    ∧ setsOn 1 (shift_array envQuiet 0 2 3 (some 1) JTAG_BYPASS_PATTERN 0 []).2.2
        = setsOn 1 [] ++ JTAG_BYPASS_PATTERN :=
  ⟨⟨by decide, by decide⟩,
    bypass_pattern_spec.2.2 envQuiet 0 2 3 1 0 [] (by decide) (by decide)⟩

/-- C8: the enumerator produces the k-fold Cartesian product in
counting order with the last tuple position varying fastest (that is,
it equals the nested-loop product with the rightmost role innermost);
for pool [P0,P1,P2] and k = 2 the raw and the duplicate-filtered
sequences are exactly the ones the claim lists. -/
theorem product_counting_order :
    (∀ (items : List PinId) (r : Nat), _product items r = specProduct items r)
    ∧ _product [0, 1, 2] 2
        = [[0, 0], [0, 1], [0, 2], [1, 0], [1, 1], [1, 2], [2, 0], [2, 1], [2, 2]]
    ∧ candidates [0, 1, 2] 2 = [[0, 1], [0, 2], [1, 0], [1, 2], [2, 0], [2, 1]] :=
  ⟨product_eq_specProduct, by decide, by decide⟩

/-- C2: for every pool of pairwise-distinct pins with at least k
elements and arity k in 3 or 4, the duplicate-filtered enumeration has
exactly N!/(N-k)! tuples, every tuple has length k, no tuple occurs
twice, and no tuple repeats a pin. -/
theorem enumerator_counts (pool : List PinId) (k : Nat)
    (hnd : pool.Nodup) (hk : k ≤ pool.length) (hk34 : k = 3 ∨ k = 4) :
    (candidates pool k).length
        = Nat.factorial pool.length / Nat.factorial (pool.length - k)
    ∧ (∀ t ∈ candidates pool k, t.length = k)
    ∧ (candidates pool k).Nodup
    ∧ (∀ t ∈ candidates pool k, t.Nodup) := by
  refine ⟨?_, mem_candidates_length pool k, candidates_nodup pool k hnd,
    mem_candidates_nodup pool k⟩
  rw [candidates_count pool k hnd]
  exact Nat.descFactorial_eq_div hk

/-- Witness for C2 at pool [0,1,2,3] and arity 4. -/
theorem enumerator_counts_witness :
    (([0, 1, 2, 3] : List PinId).Nodup ∧ 4 ≤ ([0, 1, 2, 3] : List PinId).length
      ∧ ((4 : Nat) = 3 ∨ (4 : Nat) = 4))
    ∧ (candidates [0, 1, 2, 3] 4).length
        = Nat.factorial ([0, 1, 2, 3] : List PinId).length
          / Nat.factorial (([0, 1, 2, 3] : List PinId).length - 4) :=
  ⟨⟨by decide, by decide, by decide⟩,
    (enumerator_counts [0, 1, 2, 3] 4 (by decide) (by decide) (by decide)).1⟩

/-- C6 counterexample: for a pool smaller than the required arity the
scan emits nothing at all — no log entry of any kind, no binding, no
clocking; the module state is completely unchanged, so no
ConfigurationError is ever reported. -/
theorem config_error_never_reported_cex :
    bypass_search envQuiet [0, 1, 2] initScan = initScan
    ∧ idcode_search envQuiet [0, 1] initScan = initScan := by
  constructor
  · unfold bypass_search
    rw [candidates_nil_of_short [0, 1, 2] JTAG_PINS_BYPASS_COUNT (by decide)]
    rfl
  · unfold idcode_search
    rw [candidates_nil_of_short [0, 1] JTAG_PINS_IDCODE_COUNT (by decide)]
    rfl

/-- C6 (amended): for every pool smaller than the required arity (4
for bypass_search, 3 for idcode_search) the scan does not start — no
candidate is bound or tested and nothing is reported; the module state
is returned unchanged. No ConfigurationError exists in the code. -/
theorem small_pool_silent (env : Env) (pool : List PinId) (st : ScanState) :
    (pool.length < JTAG_PINS_BYPASS_COUNT → bypass_search env pool st = st)
    ∧ (pool.length < JTAG_PINS_IDCODE_COUNT → idcode_search env pool st = st) := by
  constructor
  · intro h
    unfold bypass_search
    rw [candidates_nil_of_short pool JTAG_PINS_BYPASS_COUNT h]
    rfl
  · intro h
    unfold idcode_search
    rw [candidates_nil_of_short pool JTAG_PINS_IDCODE_COUNT h]
    rfl

/-- Witness for C6's amended theorem at a concrete pool of size 3. -/
theorem small_pool_silent_witness :
    ([5, 6, 7] : List PinId).length < JTAG_PINS_BYPASS_COUNT
    ∧ bypass_search envQuiet [5, 6, 7] initScan = initScan :=
  ⟨by decide, (small_pool_silent envQuiet [5, 6, 7] initScan).1 (by decide)⟩

/-- C4: for every single bit-clocker invocation the emitted line-event
trace is exactly clock-low, then every output pair in order, then
clock-high, then clock-low, then the TDO sample — the only clock
transitions are the stated low/high/low — and the call returns the
sampled TDO value. -/
theorem clockBit_trace_shape (env : Env) (tck tdo : PinId) (pins : List PinId)
    (states : List Bool) (cnt : Nat) (tr : List Event) (h : tck ∉ pins) :
    io_values env tck tdo pins states cnt tr
      = (env.dev cnt, cnt + 1, tr ++ clockEvents tck tdo pins states (env.dev cnt))
    ∧ clockEvents tck tdo pins states (env.dev cnt)
        = Event.set tck false ::
            ((pins.zip states).map (fun ps => Event.set ps.1 ps.2)
              ++ [Event.set tck true, Event.set tck false, Event.sample tdo (env.dev cnt)])
    ∧ setsOn tck (clockEvents tck tdo pins states (env.dev cnt)) = [false, true, false]
    ∧ (io_values env tck tdo pins states cnt tr).1 = env.dev cnt := by
  refine ⟨io_values_eq env tck tdo pins states cnt tr, rfl,
    setsOn_tck_clockEvents tck tdo pins states _ h, ?_⟩
  rw [io_values_eq]

/-- Witness for C4 at a concrete instance. -/
theorem clockBit_trace_shape_witness :
    (2 : PinId) ∉ ([0, 1] : List PinId)
    ∧ io_values envQuiet 2 3 [0, 1] [true, false] 0 []
        = (envQuiet.dev 0, 1, [] ++ clockEvents 2 3 [0, 1] [true, false] (envQuiet.dev 0)) :=
  ⟨by decide, (clockBit_trace_shape envQuiet 2 3 [0, 1] [true, false] 0 [] (by decide)).1⟩

/-- C1: for every 4-pin candidate evaluated by bypass_search (bindings
accepted, run not aborted), the value compared against the pattern is
exactly the TDO bitstream sampled during the DR shift of the BYPASS
test; the candidate is logged if and only if that bitstream equals the
transmitted pattern; a mismatch produces no log entry; and the step
never aborts the scan. -/
theorem bypass_report_iff_match (env : Env) (st : ScanState) (pool : List PinId)
    (c0 c1 c2 c3 : PinId) (h : st.aborted = false)
    (h0 : env.bindOK c0 true = true) (h1 : env.bindOK c1 true = true)
    (h2 : env.bindOK c2 true = true) (h3 : env.bindOK c3 false = true) :
    bypass_search env pool st
        = (candidates pool JTAG_PINS_BYPASS_COUNT).foldl (bypassStep env) st
    ∧ (bypass_test env c0 c1 c2 c3 JTAG_BYPASS_PATTERN st.cnt st.tr).1
        = (bypassDrShift env c0 c1 c2 c3 JTAG_BYPASS_PATTERN st.cnt st.tr).1
    ∧ samplesOf (bypassDrShift env c0 c1 c2 c3 JTAG_BYPASS_PATTERN st.cnt st.tr).2.2
        = samplesOf (bypassDrEntry env c0 c1 c2 c3 st.cnt st.tr).2
          ++ (bypassDrShift env c0 c1 c2 c3 JTAG_BYPASS_PATTERN st.cnt st.tr).1
    ∧ ((bypassStep env st [c0, c1, c2, c3]).logs
          = st.logs ++ [LogEntry.bypassFound c0 c1 c2 c3]
        ↔ (bypassDrShift env c0 c1 c2 c3 JTAG_BYPASS_PATTERN st.cnt st.tr).1
            = JTAG_BYPASS_PATTERN)
    ∧ ((bypassDrShift env c0 c1 c2 c3 JTAG_BYPASS_PATTERN st.cnt st.tr).1
          ≠ JTAG_BYPASS_PATTERN
        → (bypassStep env st [c0, c1, c2, c3]).logs = st.logs)
    ∧ (bypassStep env st [c0, c1, c2, c3]).aborted = false := by
  have hrun := bypassStep_run env st [c0, c1, c2, c3] h h0 h1 h2 h3
  refine ⟨rfl, rfl,
    shift_array_samples env c0 c2 c3 (some c1) JTAG_BYPASS_PATTERN
      (bypassDrEntry env c0 c1 c2 c3 st.cnt st.tr).1
      (bypassDrEntry env c0 c1 c2 c3 st.cnt st.tr).2, ?_⟩
  rw [hrun]
  dsimp only [List.getD_cons_zero, List.getD_cons_succ]
  by_cases hr : (bypass_test env c0 c1 c2 c3 JTAG_BYPASS_PATTERN st.cnt st.tr).1
      = JTAG_BYPASS_PATTERN
  · rw [if_pos hr]
    refine ⟨⟨fun _ => hr, fun _ => rfl⟩, fun hne => absurd hr hne, h⟩
  · rw [if_neg hr]
    refine ⟨⟨fun hcontra => ?_, fun heq => absurd heq hr⟩, fun _ => rfl, h⟩
    exfalso
    have hcontra2 : st.logs = st.logs ++ [LogEntry.bypassFound c0 c1 c2 c3] := hcontra
    have hlen := congrArg List.length hcontra2
    rw [List.length_append] at hlen
    simp at hlen

/-- Witness for C1 at a concrete instance. -/
theorem bypass_report_iff_match_witness :
    (initScan.aborted = false ∧ envQuiet.bindOK 0 true = true)
    ∧ (bypassStep envQuiet initScan [0, 1, 2, 3]).aborted = false :=
  ⟨⟨rfl, rfl⟩,
    (bypass_report_iff_match envQuiet initScan [9] 0 1 2 3 rfl rfl rfl rfl rfl).2.2.2.2.2⟩

/-- C3: for every 3-pin candidate evaluated by idcode_search (bindings
accepted, run not aborted), the reported response is the reverse of
the 32 TDO bits in the order they were sampled during the DR capture,
and the candidate is logged if and only if that response is neither
all-ones nor all-zeros; both degenerate responses produce no log entry
and the step never aborts the scan. -/
theorem idcode_report_iff_nondegenerate (env : Env) (st : ScanState) (pool : List PinId)
    (c0 c1 c2 : PinId) (h : st.aborted = false)
    (h0 : env.bindOK c0 true = true) (h1 : env.bindOK c1 true = true)
    (h2 : env.bindOK c2 false = true) :
    idcode_search env pool st
        = (candidates pool JTAG_PINS_IDCODE_COUNT).foldl (idcodeStep env) st
    ∧ (idcode_test env c0 c1 c2 st.tdi st.cnt st.tr).1
        = ((idcodeDrShift env c0 c1 c2 st.tdi st.cnt st.tr).1).reverse
    ∧ samplesOf (idcodeDrShift env c0 c1 c2 st.tdi st.cnt st.tr).2.2
        = samplesOf (idcode_preamble env c0 c1 c2 st.cnt st.tr).2
          ++ (idcodeDrShift env c0 c1 c2 st.tdi st.cnt st.tr).1
    ∧ ((idcodeStep env st [c0, c1, c2]).logs
          = st.logs ++ [LogEntry.idcodeFound c0 c1 c2
              (idcode_test env c0 c1 c2 st.tdi st.cnt st.tr).1]
        ↔ ((idcode_test env c0 c1 c2 st.tdi st.cnt st.tr).1 ≠ IDCODE_ALL_ONES
            ∧ (idcode_test env c0 c1 c2 st.tdi st.cnt st.tr).1 ≠ IDCODE_ALL_ZEROS))
    ∧ (¬((idcode_test env c0 c1 c2 st.tdi st.cnt st.tr).1 ≠ IDCODE_ALL_ONES
          ∧ (idcode_test env c0 c1 c2 st.tdi st.cnt st.tr).1 ≠ IDCODE_ALL_ZEROS)
        → (idcodeStep env st [c0, c1, c2]).logs = st.logs)
    ∧ (idcodeStep env st [c0, c1, c2]).aborted = false := by
  have hrun := idcodeStep_run env st [c0, c1, c2] h h0 h1 h2
  refine ⟨rfl, rfl,
    shift_array_samples env c0 c1 c2 st.tdi (List.replicate 32 false)
      (idcode_preamble env c0 c1 c2 st.cnt st.tr).1
      (idcode_preamble env c0 c1 c2 st.cnt st.tr).2, ?_⟩
  rw [hrun]
  dsimp only [List.getD_cons_zero, List.getD_cons_succ]
  by_cases hr : (idcode_test env c0 c1 c2 st.tdi st.cnt st.tr).1 ≠ IDCODE_ALL_ONES
      ∧ (idcode_test env c0 c1 c2 st.tdi st.cnt st.tr).1 ≠ IDCODE_ALL_ZEROS
  · rw [if_pos hr]
    refine ⟨⟨fun _ => hr, fun _ => rfl⟩, fun hne => absurd hr hne, h⟩
  · rw [if_neg hr]
    refine ⟨⟨fun hcontra => ?_, fun heq => absurd heq hr⟩, fun _ => rfl, h⟩
    exfalso
    have hcontra2 : st.logs = st.logs ++ [LogEntry.idcodeFound c0 c1 c2
        (idcode_test env c0 c1 c2 st.tdi st.cnt st.tr).1] := hcontra
    have hlen := congrArg List.length hcontra2
    rw [List.length_append] at hlen
    simp at hlen

/-- Witness for C3 at a concrete instance. -/
theorem idcode_report_iff_nondegenerate_witness :
    (initScan.aborted = false ∧ envQuiet.bindOK 0 true = true)
    ∧ (idcodeStep envQuiet initScan [0, 1, 2]).aborted = false :=
  ⟨⟨rfl, rfl⟩,
    (idcode_report_iff_nondegenerate envQuiet initScan [9] 0 1 2 rfl rfl rfl rfl).2.2.2.2.2⟩

/-- C9 counterexample: with an adapter that refuses pin 4, a
bypass_search over [0,1,2,3,4] aborts as a whole at the second
candidate (0,1,2,4): the final state is aborted, nothing was logged,
and only one candidate's 94 clocks were ever driven — the remaining
refusal-free candidates are never evaluated, contradicting the claim
that only the refused candidate is skipped and the scan continues. -/
theorem bind_refusal_aborts_cex :
    (bypass_search envRefuse4 [0, 1, 2, 3, 4] initScan).aborted = true
    ∧ (bypass_search envRefuse4 [0, 1, 2, 3, 4] initScan).logs = []
    ∧ (bypass_search envRefuse4 [0, 1, 2, 3, 4] initScan).cnt = 94 := by
  refine ⟨by decide, by decide, by decide⟩

/-- C9 (amended): if the adapter refuses to configure one of a
candidate's pins, the exception propagates: the step marks the run
aborted, that candidate produces no result and no clocking, and once
aborted every remaining candidate is a no-op — the scan as a whole is
aborted rather than continuing. -/
theorem bind_refusal_abort_behavior (env : Env) (st : ScanState) (comb : List PinId) :
    (st.aborted = true → bypassStep env st comb = st ∧ idcodeStep env st comb = st)
    ∧ (st.aborted = false
        → ¬(env.bindOK (comb.getD 0 0) true = true ∧ env.bindOK (comb.getD 1 0) true = true
            ∧ env.bindOK (comb.getD 2 0) true = true ∧ env.bindOK (comb.getD 3 0) false = true)
        → (bypassStep env st comb).aborted = true ∧ (bypassStep env st comb).logs = st.logs
          ∧ (bypassStep env st comb).cnt = st.cnt)
    ∧ (st.aborted = false
        → ¬(env.bindOK (comb.getD 0 0) true = true ∧ env.bindOK (comb.getD 1 0) true = true
            ∧ env.bindOK (comb.getD 2 0) false = true)
        → (idcodeStep env st comb).aborted = true ∧ (idcodeStep env st comb).logs = st.logs
          ∧ (idcodeStep env st comb).cnt = st.cnt)
    ∧ (∀ l : List (List PinId), st.aborted = true
        → l.foldl (bypassStep env) st = st ∧ l.foldl (idcodeStep env) st = st) :=
  ⟨fun ha => ⟨bypassStep_aborted_eq env st comb ha, idcodeStep_aborted_eq env st comb ha⟩,
    fun h href => bypassStep_refused env st comb h href,
    fun h href => idcodeStep_refused env st comb h href,
    fun l ha => ⟨foldl_bypassStep_of_aborted env l st ha, foldl_idcodeStep_of_aborted env l st ha⟩⟩

/-- Witness for C9's amended theorem at a concrete refused candidate. -/
theorem bind_refusal_abort_behavior_witness :
    (initScan.aborted = false
      ∧ ¬(envRefuse4.bindOK (([0, 1, 2, 4] : List PinId).getD 0 0) true = true
          ∧ envRefuse4.bindOK (([0, 1, 2, 4] : List PinId).getD 1 0) true = true
          ∧ envRefuse4.bindOK (([0, 1, 2, 4] : List PinId).getD 2 0) true = true
          ∧ envRefuse4.bindOK (([0, 1, 2, 4] : List PinId).getD 3 0) false = true))
    ∧ (bypassStep envRefuse4 initScan [0, 1, 2, 4]).aborted = true :=
  ⟨⟨rfl, by decide⟩,
    ((bind_refusal_abort_behavior envRefuse4 initScan [0, 1, 2, 4]).2.1 rfl (by decide)).1⟩

/-- C10: a bypass_search whose bindings all succeed leaves the module
TDI bound to the TDI pin of the last candidate it evaluated;
idcode_search never rebinds or clears TDI; with TDI bound the generic
32-bit shift drives TMS low for 31 clocks and high on the 32nd while
the zero payload goes to the stale TDI pin, whereas with TDI unbound
the zero payload is driven on TMS, keeping TMS low on all 32 clocks. -/
theorem stale_tdi_frame_effect (env : Env) (pool : List PinId) (st : ScanState)
    (hall : ∀ p d, env.bindOK p d = true) (h : st.aborted = false)
    (hne : candidates pool JTAG_PINS_BYPASS_COUNT ≠ []) :
    (bypass_search env pool st).tdi
        = some (((candidates pool JTAG_PINS_BYPASS_COUNT).getLastD []).getD 1 0)
    ∧ (∀ (pool2 : List PinId) (st2 : ScanState), (idcode_search env pool2 st2).tdi = st2.tdi)
    ∧ (∀ (tms tck tdo p : PinId) (cnt : Nat) (tr : List Event), tms ≠ tck → tms ≠ p →
        setsOn tms (shift_array env tms tck tdo (some p) (List.replicate 32 false) cnt tr).2.2
          = setsOn tms tr ++ (List.replicate 31 false ++ [true]))
    ∧ (∀ (tms tck tdo p : PinId) (cnt : Nat) (tr : List Event), p ≠ tms → p ≠ tck →
        setsOn p (shift_array env tms tck tdo (some p) (List.replicate 32 false) cnt tr).2.2
          = setsOn p tr ++ List.replicate 32 false)
    ∧ (∀ (tms tck tdo : PinId) (cnt : Nat) (tr : List Event), tms ≠ tck →
        setsOn tms (shift_array env tms tck tdo none (List.replicate 32 false) cnt tr).2.2
          = setsOn tms tr ++ List.replicate 32 false) := by
  refine ⟨foldl_bypassStep_tdi env hall _ st h hne,
    fun pool2 st2 => foldl_idcodeStep_tdi env _ st2, ?_, ?_, ?_⟩
  · intro tms tck tdo p cnt tr h1 h2
    exact shift_array_some_setsOn_tms env tms tck tdo p (List.replicate 32 false) cnt tr h1 h2
      (by simp)
  · intro tms tck tdo p cnt tr h1 h2
    exact shift_array_some_setsOn_tdi env tms tck tdo p (List.replicate 32 false) cnt tr h2 h1
  · intro tms tck tdo cnt tr h1
    exact shift_array_none_setsOn env tms tck tdo (List.replicate 32 false) cnt tr h1

/-- Witness for C10 at a concrete scan. -/
theorem stale_tdi_frame_effect_witness :
    (initScan.aborted = false ∧ candidates [0, 1, 2, 3] JTAG_PINS_BYPASS_COUNT ≠ [])
    ∧ (bypass_search envQuiet [0, 1, 2, 3] initScan).tdi
        = some (((candidates [0, 1, 2, 3] JTAG_PINS_BYPASS_COUNT).getLastD []).getD 1 0) :=
  ⟨⟨rfl, by decide⟩,
    (stale_tdi_frame_effect envQuiet [0, 1, 2, 3] initScan (fun _ _ => rfl) rfl (by decide)).1⟩

/-- C5 counterexample: after a bypass_search over [0,1,2,3] the module
TDI is still bound to pin 2 when a subsequent idcode_search runs (and
stays bound throughout it), and an IDCODE test executed with that
stale binding drives TMS high on the 32nd capture clock — so it is not
true that every idcode_search invocation runs the IDCODE test with no
TDI bound and TMS low on all 32 capture clocks. -/
theorem idcode_tdi_stale_cex :
    (bypass_search envQuiet [0, 1, 2, 3] initScan).tdi = some 2
    ∧ (idcode_search envQuiet [0, 1, 3] (bypass_search envQuiet [0, 1, 2, 3] initScan)).tdi
        = some 2
    ∧ setsOn 0 (idcode_test envQuiet 0 1 3 (some 2) 0 []).2.2
        = RESTORE_IDLE_SEQ ++ ENTER_SHIFT_DR_SEQ ++ (List.replicate 31 false ++ [true])
          ++ [false, true, false] := by
  refine ⟨by decide, by decide, by decide⟩

/-- C5 (amended): on a fresh module state (TDI unbound, as after
import), idcode_search keeps TDI unbound throughout, the generic shift
takes the branch that drives the all-zero 32-bit payload onto the TMS
line, and therefore TMS is held at 0 on every one of the 32 capture
clocks of the IDCODE test. -/
theorem idcode_fresh_tms_low (env : Env) (pool : List PinId) (st : ScanState)
    (hfresh : st.tdi = none) :
    (idcode_search env pool st).tdi = none
    ∧ (∀ (st2 : ScanState) (comb : List PinId), (idcodeStep env st2 comb).tdi = st2.tdi)
    ∧ (∀ (tms tck tdo : PinId) (data : List Bool) (cnt : Nat) (tr : List Event),
        shift_array env tms tck tdo none data cnt tr = io_tms env tms tck tdo data cnt tr)
    ∧ (∀ (tms tck tdo : PinId) (cnt : Nat) (tr : List Event), tms ≠ tck →
        setsOn tms (shift_array env tms tck tdo none (List.replicate 32 false) cnt tr).2.2
          = setsOn tms tr ++ List.replicate 32 false) := by
  refine ⟨?_, fun st2 comb => idcodeStep_tdi_eq env st2 comb,
    fun tms tck tdo data cnt tr => rfl, ?_⟩
  · rw [idcode_search, foldl_idcodeStep_tdi env _ st]
    exact hfresh
  · intro tms tck tdo cnt tr h1
    exact shift_array_none_setsOn env tms tck tdo (List.replicate 32 false) cnt tr h1

/-- Witness for C5's amended theorem on a fresh module. -/
theorem idcode_fresh_tms_low_witness :
    initScan.tdi = none ∧ (idcode_search envQuiet [0, 1, 2] initScan).tdi = none :=
  ⟨rfl, (idcode_fresh_tms_low envQuiet [0, 1, 2] initScan rfl).1⟩
